import Mathlib

/-!
Verification of the export grouping algorithm of HEINZ1110/monster3
(`get_images_to_export`, monsterlangnachrumgetue.py, lines 1221-1269).

The function reads the scan mode string from `scan_mode_combo` (whose items
are "Single", "Pair", "All", "Group of X", "Alternate"), the selection from
`get_selected_images()`, the full image list `self.images`, and the interval
from `interval_spin` (a spin box with minimum 1 and maximum 100).  We embed
it as a pure function of those four inputs.  Python exceptions are modelled
by `Except.error`; the only reachable one is the `ValueError` that
`range(0, n, 0)` raises when `interval = 0` meets mode "Group of X".
-/

namespace Monster3

/-- Model of Python `range(start, stop, step)` for a positive `step`:
the arithmetic progression `start, start + step, ...` of all values below
`stop`, which has `ceil((stop - start) / step)` terms.  Call sites guard
`step = 0` (Python raises `ValueError` there) so the `step = 0` case of this
model is never consulted. -/
def pyRange (start stop step : Nat) : List Nat :=
  List.range' start ((stop - start + step - 1) / step) step

/-- Model of the Python slice `xs[i:j]` for `0 ≤ i ≤ j`. -/
def pySlice (xs : List α) (i j : Nat) : List α :=
  (xs.drop i).take (j - i)

/-- The items of `scan_mode_combo` (source line 832-835). -/
def scanModes : List String :=
  ["Single", "Pair", "All", "Group of X", "Alternate"]

/-- The mode dispatch of `get_images_to_export` after the preview list has
been resolved (source lines 1235-1269).  Each branch is a direct translation:
`Single` wraps every image in its own list; `Pair` and `Group of X` are the
comprehensions over `range(0, len, k)` of the slices `[i : i + k]`;
`All` returns the single group `[preview_images]`; `Alternate` with
`interval <= 1` returns `[preview_images]`, otherwise it collects, for each
`step` in `range(interval)`, the images at indices `range(step, len,
interval)` and keeps the non-empty groups; any other mode string falls
through to `return []`. -/
def exportBody (preview_images : List α) (mode : String) (interval : Nat) :
    Except String (List (List α)) :=
  if mode = "Single" then
    .ok (preview_images.map (fun image => [image]))
  else if mode = "Pair" then
    .ok ((pyRange 0 preview_images.length 2).map (fun i =>
      pySlice preview_images i (i + 2)))
  else if mode = "All" then
    .ok [preview_images]
  else if mode = "Group of X" then
    if interval = 0 then .error "ValueError: range() arg 3 must not be zero"
    else .ok ((pyRange 0 preview_images.length interval).map (fun i =>
      pySlice preview_images i (i + interval)))
  else if mode = "Alternate" then
    if interval ≤ 1 then .ok [preview_images]
    else .ok (((List.range interval).map (fun step =>
      (pyRange step preview_images.length interval).filterMap
        (fun i => preview_images[i]?))).filter (fun g => !g.isEmpty))
  else .ok []

/-- Shallow embedding of `get_images_to_export` (source lines 1221-1269).
`selected` stands for `self.get_selected_images()`, `images` for
`self.images`, `mode` for `self.scan_mode_combo.currentText()` and
`interval` for `self.interval_spin.value()`.  The wrapper is the guard at
lines 1228-1233: with an empty selection, mode "All" falls back to a copy of
the full image list and every other mode returns `[]` at once. -/
def get_images_to_export (images selected : List α) (mode : String)
    (interval : Nat) : Except String (List (List α)) :=
  if selected.isEmpty then
    if mode = "All" then exportBody images mode interval
    else .ok []
  else exportBody selected mode interval

/-- The entry sequence the function actually partitions: the selection, or,
in mode "All" with an empty selection, the full image list (the fallback at
source lines 1228-1231). -/
def resolvedInput (images selected : List α) (mode : String) : List α :=
  if selected.isEmpty ∧ mode = "All" then images else selected

/-- Spec-side description of the `Alternate` partition (spec section 4.1):
group `k` (for `k` below `interval`) holds the entries whose input position
is congruent to `k` modulo `interval`, in increasing index order, and the
groups that would be empty are omitted. -/
def specAlternate (entries : List α) (interval : Nat) : List (List α) :=
  ((List.range interval).map (fun k =>
    ((List.range entries.length).filter (fun i => i % interval = k)).filterMap
      (fun i => entries[i]?))).filter (fun g => !g.isEmpty)

/-- Spec-side description of chunking (spec section 4.1, modes `Pair` and
`GroupOfX`): consecutive non-overlapping chunks of size `k` in input order,
the last chunk possibly shorter.  The degenerate chunk size `k = 0` yields
`[]`; every use below has `k ≥ 1`. -/
def chunksSpec (k : Nat) (xs : List α) : List (List α) :=
  if _h : xs.length = 0 ∨ k = 0 then []
  else xs.take k :: chunksSpec k (xs.drop k)
termination_by xs.length
decreasing_by simp only [List.length_drop]; omega

/-! ### Unfolding lemmas -/

lemma get_cons (images : List α) (x : α) (t : List α) (mode : String)
    (interval : Nat) :
    get_images_to_export images (x :: t) mode interval =
      exportBody (x :: t) mode interval := rfl

lemma get_nil (images : List α) (mode : String) (interval : Nat) :
    get_images_to_export images ([] : List α) mode interval =
      if mode = "All" then exportBody images mode interval else .ok [] := rfl

lemma exportBody_single (xs : List α) (interval : Nat) :
    exportBody xs "Single" interval = .ok (xs.map (fun image => [image])) := rfl

lemma exportBody_pair (xs : List α) (interval : Nat) :
    exportBody xs "Pair" interval =
      .ok ((pyRange 0 xs.length 2).map (fun i => pySlice xs i (i + 2))) := rfl

lemma exportBody_all (xs : List α) (interval : Nat) :
    exportBody xs "All" interval = .ok [xs] := rfl

lemma exportBody_groupOfX (xs : List α) (interval : Nat) :
    exportBody xs "Group of X" interval =
      if interval = 0 then .error "ValueError: range() arg 3 must not be zero"
      else .ok ((pyRange 0 xs.length interval).map (fun i =>
        pySlice xs i (i + interval))) := rfl

lemma exportBody_alternate (xs : List α) (interval : Nat) :
    exportBody xs "Alternate" interval =
      if interval ≤ 1 then .ok [xs]
      else .ok (((List.range interval).map (fun step =>
        (pyRange step xs.length interval).filterMap
          (fun i => xs[i]?))).filter (fun g => !g.isEmpty)) := rfl

lemma exportBody_unknown (xs : List α) (mode : String) (interval : Nat)
    (hm : mode ∉ scanModes) : exportBody xs mode interval = .ok [] := by
  simp only [scanModes, List.mem_cons, List.not_mem_nil, or_false,
    not_or] at hm
  obtain ⟨h1, h2, h3, h4, h5⟩ := hm
  unfold exportBody
  rw [if_neg h1, if_neg h2, if_neg h3, if_neg h4, if_neg h5]

/-! ### Facts about `pyRange` -/

lemma length_pyRange (start stop step : Nat) :
    (pyRange start stop step).length = (stop - start + step - 1) / step := by
  simp [pyRange]

lemma pyRange_stop_zero (start step : Nat) : pyRange start 0 step = [] := by
  unfold pyRange
  rcases Nat.eq_zero_or_pos step with h | h
  · simp [h]
  · rw [Nat.zero_sub, Nat.zero_add, Nat.div_eq_of_lt (by omega)]
    simp

lemma pyRange_zero_cons {n v : Nat} (hv : 1 ≤ v) (hn : 1 ≤ n) :
    pyRange 0 n v = 0 :: (pyRange 0 (n - v) v).map (v + ·) := by
  unfold pyRange
  have hc : (n - 0 + v - 1) / v = (n - v - 0 + v - 1) / v + 1 := by
    rcases le_or_lt v n with h | h
    · have e1 : n - 0 + v - 1 = (n - v - 0 + v - 1) + v := by omega
      rw [e1, Nat.add_div_right _ (by omega)]
    · have e1 : n - v = 0 := by omega
      have e2 : n - 0 + v - 1 = (n - 1) + v := by omega
      rw [e1, e2, Nat.add_div_right _ (by omega),
        Nat.div_eq_of_lt (by omega), Nat.div_eq_of_lt (by omega)]
  rw [hc, List.range'_succ, List.map_add_range', Nat.zero_add, Nat.add_zero]

/-- `range(k, n, v)` enumerates exactly the indices below `n` congruent to
`k` modulo `v`, in increasing order. -/
lemma pyRange_eq_filter {v k : Nat} (hk : k < v) :
    ∀ n, pyRange k n v = (List.range n).filter (fun i => i % v = k)
  | 0 => by simp [pyRange_stop_zero]
  | n + 1 => by
    rw [List.range_succ, List.filter_append, ← pyRange_eq_filter hk n]
    have hv : 0 < v := by omega
    by_cases hnk : n % v = k
    · have hkn : k ≤ n := by
        by_contra hlt
        push_neg at hlt
        have : n % v = n := Nat.mod_eq_of_lt (by omega)
        omega
      obtain ⟨m, rfl⟩ : ∃ m, n = v * m + k := by
        refine ⟨n / v, ?_⟩
        have h1 := Nat.div_add_mod n v
        rw [hnk] at h1
        exact h1.symm
      have hc1 : (v * m + k + 1 - k + v - 1) / v = m + 1 := by
        have e : v * m + k + 1 - k + v - 1 = v * m + v := by
          generalize v * m = P
          omega
        rw [e, Nat.mul_add_div hv, Nat.div_self hv]
      have hc0 : (v * m + k - k + v - 1) / v = m := by
        have e : v * m + k - k + v - 1 = v * m + (v - 1) := by
          generalize v * m = P
          omega
        rw [e, Nat.mul_add_div hv, Nat.div_eq_of_lt (by omega), Nat.add_zero]
      unfold pyRange
      rw [hc1, hc0, List.range'_concat]
      simp [List.filter_cons, hnk, Nat.add_comm, Nat.mod_eq_of_lt hk]
    · have hc : (n + 1 - k + v - 1) / v = (n - k + v - 1) / v := by
        rcases le_or_lt k n with hkn | hkn
        · obtain ⟨m, r, hd, hrv⟩ : ∃ m r, n - k = v * m + r ∧ r < v :=
            ⟨(n - k) / v, (n - k) % v, (Nat.div_add_mod (n - k) v).symm,
              Nat.mod_lt _ hv⟩
          set P := v * m with hP
          have hr1 : r ≠ 0 := by
            intro h0
            apply hnk
            have e : n = P + k := by omega
            rw [e, hP, Nat.mul_add_mod, Nat.mod_eq_of_lt hk]
          have e1 : n + 1 - k + v - 1 = P + (r + v) := by omega
          have e0 : n - k + v - 1 = P + (r + v - 1) := by omega
          have d1 : (r + v) / v = 1 := by
            rw [Nat.add_div_right _ hv, Nat.div_eq_of_lt hrv]
          have d0 : (r + v - 1) / v = 1 := by
            have e : r + v - 1 = (r - 1) + v := by omega
            rw [e, Nat.add_div_right _ hv, Nat.div_eq_of_lt (by omega)]
          rw [e1, e0, hP, Nat.mul_add_div hv, Nat.mul_add_div hv, d1, d0]
        · have e1 : n + 1 - k = 0 := by omega
          have e0 : n - k = 0 := by omega
          rw [e1, e0]
      unfold pyRange
      rw [hc]
      simp [List.filter_cons, hnk]

/-! ### Index lists and permutation machinery -/

/-- Reading every index of `xs` in order recovers `xs`. -/
lemma filterMap_getElem?_range (xs : List α) :
    (List.range xs.length).filterMap (fun i => xs[i]?) = xs := by
  induction xs with
  | nil => simp
  | cons x t ih =>
    rw [List.length_cons, List.range_succ_eq_map, List.filterMap_cons,
      List.filterMap_map]
    simp only [List.getElem?_cons_zero, Function.comp_def, Nat.succ_eq_add_one,
      List.getElem?_cons_succ]
    rw [ih]

/-- Filters by two mutually exclusive predicates concatenate, up to
permutation, to the filter by their disjunction. -/
lemma filter_disjoint_perm (p q : α → Bool) :
    ∀ l : List α, (∀ a ∈ l, ¬(p a = true ∧ q a = true)) →
      (l.filter p ++ l.filter q).Perm (l.filter (fun a => p a || q a))
  | [], _ => by simp
  | a :: l, h => by
    have hl := filter_disjoint_perm p q l
      (fun b hb => h b (List.mem_cons_of_mem _ hb))
    have ha := h a (List.mem_cons_self _ _)
    by_cases hp : p a
    · have hq : q a = false := by
        cases hqv : q a
        · rfl
        · exact absurd ⟨hp, hqv⟩ ha
      simp only [List.filter_cons, hp, hq, Bool.true_or, if_true,
        List.cons_append]
      exact hl.cons a
    · by_cases hq : q a
      · simp only [List.filter_cons, hp, hq, Bool.false_or, if_true, if_false,
          Bool.false_eq_true]
        exact List.perm_middle.trans (hl.cons a)
      · simp only [List.filter_cons, hp, hq, Bool.false_or, if_false,
          Bool.false_eq_true]
        exact hl

/-- Splitting a list into the fibers of `f` below `v` and flattening is a
permutation of the elements whose `f`-value is below `v`. -/
lemma flatten_map_filter_fiber_perm (f : α → Nat) (l : List α) :
    ∀ v, (((List.range v).map (fun k =>
        l.filter (fun a => f a = k))).flatten).Perm
      (l.filter (fun a => f a < v))
  | 0 => by simp
  | v + 1 => by
    rw [List.range_succ, List.map_append, List.flatten_append]
    simp only [List.map_cons, List.map_nil, List.flatten_cons,
      List.flatten_nil, List.append_nil]
    refine ((flatten_map_filter_fiber_perm f l v).append_right _).trans ?_
    refine (filter_disjoint_perm _ _ l ?_).trans ?_
    · rintro a _ ⟨hlt, heq⟩
      simp only [decide_eq_true_eq] at hlt heq
      omega
    · have e : l.filter (fun a => decide (f a < v) || decide (f a = v)) =
          l.filter (fun a => f a < v + 1) := by
        refine List.filter_congr ?_
        intro a _
        rw [← Bool.decide_or, decide_eq_decide]
        omega
      rw [e]

/-- The residue classes modulo `v` partition `List.range n`. -/
lemma flatten_map_fiber_range_perm {n v : Nat} (hv : 1 ≤ v) :
    (((List.range v).map (fun k =>
        (List.range n).filter (fun i => i % v = k))).flatten).Perm
      (List.range n) := by
  refine (flatten_map_filter_fiber_perm (fun i => i % v)
    (List.range n) v).trans ?_
  have e : (List.range n).filter (fun i => i % v < v) = List.range n := by
    refine List.filter_eq_self.mpr ?_
    intro a _
    simp [Nat.mod_lt _ (show 0 < v by omega)]
  rw [e]

/-- The entries of the `Alternate` groups are, as a multiset, exactly the
input entries. -/
lemma specAlternate_flatten_perm (xs : List α) {v : Nat} (hv : 1 ≤ v) :
    ((specAlternate xs v).flatten).Perm xs := by
  unfold specAlternate
  rw [List.flatten_filter_not_isEmpty]
  have e2 : (fun k => List.filterMap (fun i => xs[i]?)
        ((List.range xs.length).filter (fun i => i % v = k))) =
      (List.filterMap (fun i => xs[i]?)) ∘
        (fun k => (List.range xs.length).filter (fun i => i % v = k)) := rfl
  rw [e2, ← List.map_map, ← List.filterMap_flatten]
  have h := (flatten_map_fiber_range_perm (n := xs.length) hv).filterMap
    (fun i => xs[i]?)
  rw [filterMap_getElem?_range] at h
  exact h

/-- Every `Alternate` group is an order-preserving selection from the
input. -/
lemma specAlternate_sublist (xs : List α) {v : Nat} (g : List α)
    (hg : g ∈ specAlternate xs v) : g.Sublist xs := by
  unfold specAlternate at hg
  have hg2 := List.mem_of_mem_filter hg
  rw [List.mem_map] at hg2
  obtain ⟨k, _, rfl⟩ := hg2
  have h1 : ((List.range xs.length).filter
      (fun i => i % v = k)).Sublist (List.range xs.length) :=
    List.filter_sublist _
  have h2 := h1.filterMap (fun i => xs[i]?)
  rw [filterMap_getElem?_range] at h2
  exact h2

/-! ### Chunking -/

lemma chunksSpec_nil (k : Nat) : chunksSpec k ([] : List α) = [] := by
  unfold chunksSpec
  simp

lemma chunksSpec_cons (k : Nat) (xs : List α) (hk : k ≠ 0) (hxs : xs ≠ []) :
    chunksSpec k xs = xs.take k :: chunksSpec k (xs.drop k) := by
  conv_lhs => rw [chunksSpec]
  rw [dif_neg]
  push_neg
  exact ⟨fun h => hxs (List.length_eq_zero.mp h), hk⟩

lemma pySlice_zero (xs : List α) (v : Nat) : pySlice xs 0 v = xs.take v := by
  simp [pySlice]

lemma pySlice_shift (xs : List α) (v i j : Nat) :
    pySlice xs (v + i) (v + j) = pySlice (xs.drop v) i j := by
  unfold pySlice
  rw [List.drop_drop]
  congr 1
  omega

/-- The `Pair` and `Group of X` comprehensions compute exactly the
consecutive chunks of the input. -/
theorem pyChunks_eq_chunksSpec {α : Type _} (v : Nat) (hv : 1 ≤ v) :
    (xs : List α) →
      (pyRange 0 xs.length v).map (fun i => pySlice xs i (i + v)) =
        chunksSpec v xs
  | [] => by simp [pyRange_stop_zero, chunksSpec_nil]
  | x :: t => by
    rw [chunksSpec_cons v (x :: t) (by omega) (by simp),
      pyRange_zero_cons hv (by simp), List.map_cons, List.map_map]
    congr 1
    · rw [Nat.zero_add, pySlice_zero]
    · have ih := pyChunks_eq_chunksSpec v hv ((x :: t).drop v)
      rw [← ih, List.length_drop]
      refine List.map_congr_left ?_
      intro i _
      show pySlice (x :: t) (v + i) (v + i + v) = pySlice ((x :: t).drop v) i (i + v)
      have e : v + i + v = v + (i + v) := by omega
      rw [e, pySlice_shift]
termination_by xs => xs.length
decreasing_by simp only [List.length_drop, List.length_cons]; omega

lemma chunksSpec_flatten {α : Type _} {v : Nat} (hv : 1 ≤ v) :
    (xs : List α) → (chunksSpec v xs).flatten = xs
  | [] => by simp [chunksSpec_nil]
  | x :: t => by
    rw [chunksSpec_cons v (x :: t) (by omega) (by simp), List.flatten_cons,
      chunksSpec_flatten hv ((x :: t).drop v), List.take_append_drop]
termination_by xs => xs.length
decreasing_by simp only [List.length_drop, List.length_cons]; omega

lemma chunksSpec_mem_sublist {α : Type _} {v : Nat} (hv : 1 ≤ v) :
    (xs : List α) → ∀ g ∈ chunksSpec v xs, g.Sublist xs
  | [] => by simp [chunksSpec_nil]
  | x :: t => by
    rw [chunksSpec_cons v (x :: t) (by omega) (by simp)]
    rintro g hg
    rcases List.mem_cons.mp hg with rfl | hg2
    · exact List.take_sublist _ _
    · exact (chunksSpec_mem_sublist hv ((x :: t).drop v) g hg2).trans
        (List.drop_sublist _ _)
termination_by xs => xs.length
decreasing_by simp only [List.length_drop, List.length_cons]; omega

lemma chunksSpec_mem_ne_nil {α : Type _} {v : Nat} (hv : 1 ≤ v) :
    (xs : List α) → ∀ g ∈ chunksSpec v xs, g ≠ []
  | [] => by simp [chunksSpec_nil]
  | x :: t => by
    rw [chunksSpec_cons v (x :: t) (by omega) (by simp)]
    rintro g hg
    rcases List.mem_cons.mp hg with rfl | hg2
    · intro h
      rcases List.take_eq_nil_iff.mp h with h0 | h0
      · omega
      · exact List.cons_ne_nil x t h0
    · exact chunksSpec_mem_ne_nil hv ((x :: t).drop v) g hg2
termination_by xs => xs.length
decreasing_by simp only [List.length_drop, List.length_cons]; omega

lemma chunksSpec_length {α : Type _} (v : Nat) (hv : 1 ≤ v) (xs : List α) :
    (chunksSpec v xs).length = (xs.length + v - 1) / v := by
  rw [← pyChunks_eq_chunksSpec v hv xs, List.length_map, length_pyRange,
    Nat.sub_zero]

lemma chunksSpec_one : (xs : List α) → chunksSpec 1 xs = xs.map (fun a => [a])
  | [] => by simp [chunksSpec_nil]
  | x :: t => by
    rw [chunksSpec_cons 1 (x :: t) one_ne_zero (by simp)]
    have h1 : (x :: t).take 1 = [x] := rfl
    have h2 : (x :: t).drop 1 = t := rfl
    rw [h1, h2, chunksSpec_one t, List.map_cons]

/-! ### Mode-level characterizations -/

lemma exportBody_pair_chunks (xs : List α) (interval : Nat) :
    exportBody xs "Pair" interval = .ok (chunksSpec 2 xs) := by
  rw [exportBody_pair, pyChunks_eq_chunksSpec 2 (by omega)]

lemma exportBody_groupOfX_chunks (xs : List α) {interval : Nat}
    (hi : 1 ≤ interval) :
    exportBody xs "Group of X" interval = .ok (chunksSpec interval xs) := by
  rw [exportBody_groupOfX, if_neg (by omega),
    pyChunks_eq_chunksSpec interval hi]

lemma exportBody_alternate_spec (xs : List α) {v : Nat} (hv : 2 ≤ v) :
    exportBody xs "Alternate" v = .ok (specAlternate xs v) := by
  rw [exportBody_alternate, if_neg (by omega)]
  unfold specAlternate
  congr 2
  refine List.map_congr_left ?_
  intro k hk
  rw [pyRange_eq_filter (List.mem_range.mp hk)]

/-! ### Characterizing the `Alternate` output -/

/-- Reading indices that are all in range loses nothing. -/
lemma filterMap_getElem?_length {xs : List α} :
    (is : List Nat) → (∀ i ∈ is, i < xs.length) →
      (is.filterMap (fun i => xs[i]?)).length = is.length
  | [], _ => by simp
  | i :: t, h => by
    have hi : i < xs.length := h i (List.mem_cons_self _ _)
    rw [List.filterMap_cons, List.getElem?_eq_getElem hi]
    simp only [List.length_cons]
    rw [filterMap_getElem?_length t (fun j hj => h j (List.mem_cons_of_mem _ hj))]

/-- For `k < v`, the residue fiber of `k` below `n` is empty exactly when
`n ≤ k`. -/
lemma fiber_isEmpty_iff {n v k : Nat} (hk : k < v) :
    (List.range n).filter (fun i => i % v = k) = [] ↔ n ≤ k := by
  constructor
  · intro h
    by_contra hlt
    push_neg at hlt
    have hkmem : k ∈ (List.range n).filter (fun i => i % v = k) := by
      rw [List.mem_filter]
      exact ⟨List.mem_range.mpr hlt, by simp [Nat.mod_eq_of_lt hk]⟩
    rw [h] at hkmem
    exact List.not_mem_nil _ hkmem
  · intro h
    rw [List.filter_eq_nil_iff]
    intro i hi
    have hin := List.mem_range.mp hi
    have e : i % v = i := Nat.mod_eq_of_lt (by omega)
    simp only [e, decide_eq_true_eq]
    omega

/-- A non-empty group of the `Alternate` construction is one whose residue
class is inhabited, i.e. whose index is below the input length. -/
lemma specAlternate_filter_key (xs : List α) {v : Nat} :
    (List.range v).filter ((fun g => !g.isEmpty) ∘ (fun k =>
        ((List.range xs.length).filter (fun i => i % v = k)).filterMap
          (fun i => xs[i]?))) =
      (List.range v).filter (fun k => k < xs.length) := by
  refine List.filter_congr ?_
  intro k hkv
  have hk := List.mem_range.mp hkv
  simp only [Function.comp_def]
  have hlen : (((List.range xs.length).filter (fun i => i % v = k)).filterMap
      (fun i => xs[i]?)).length =
      ((List.range xs.length).filter (fun i => i % v = k)).length :=
    filterMap_getElem?_length _ (fun i hi =>
      List.mem_range.mp (List.mem_of_mem_filter hi))
  by_cases hkn : k < xs.length
  · have hne : (List.range xs.length).filter (fun i => i % v = k) ≠ [] := by
      intro h
      have := (fiber_isEmpty_iff hk).mp h
      omega
    have hne2 : ((List.range xs.length).filter (fun i => i % v = k)).filterMap
        (fun i => xs[i]?) ≠ [] := by
      intro h
      apply hne
      have h0 := congrArg List.length h
      rw [hlen] at h0
      exact List.length_eq_zero.mp h0
    rw [List.isEmpty_eq_false.mpr hne2]
    simp [hkn]
  · have hnil : (List.range xs.length).filter (fun i => i % v = k) = [] :=
      (fiber_isEmpty_iff hk).mpr (by omega)
    rw [hnil]
    simp [hkn]

/-- Counting the indices below `v` that are also below `n`. -/
lemma filter_lt_length {n : Nat} :
    (v : Nat) → ((List.range v).filter (fun k => k < n)).length = min v n
  | 0 => by simp
  | v + 1 => by
    rw [List.range_succ, List.filter_append, List.length_append,
      filter_lt_length v]
    by_cases h : v < n
    · simp only [List.filter_cons, List.filter_nil, decide_eq_true_eq]
      rw [if_pos h]
      simp only [List.length_cons, List.length_nil]
      omega
    · simp only [List.filter_cons, List.filter_nil, decide_eq_true_eq]
      rw [if_neg h]
      simp only [List.length_nil]
      omega

/-- The indices below `v` that are below `n ≤ v` are exactly `range n`. -/
lemma filter_lt_range {n v : Nat} (hn : n ≤ v) :
    (List.range v).filter (fun k => k < n) = List.range n := by
  obtain ⟨d, rfl⟩ : ∃ d, v = n + d := ⟨v - n, by omega⟩
  rw [List.range_add, List.filter_append]
  have e1 : (List.range n).filter (fun k => k < n) = List.range n :=
    List.filter_eq_self.mpr (fun a ha => by simpa using List.mem_range.mp ha)
  have e2 : ((List.range d).map (n + ·)).filter (fun k => k < n) = [] := by
    rw [List.filter_eq_nil_iff]
    intro a ha
    rw [List.mem_map] at ha
    obtain ⟨j, _, rfl⟩ := ha
    simp
  rw [e1, e2, List.append_nil]

/-- The number of `Alternate` groups: `min interval n` for `n > 0`, else
none. -/
lemma specAlternate_length (xs : List α) (v : Nat) :
    (specAlternate xs v).length =
      if xs.length = 0 then 0 else min v xs.length := by
  unfold specAlternate
  rw [List.filter_map, List.length_map, specAlternate_filter_key xs,
    filter_lt_length v]
  rcases Nat.eq_zero_or_pos xs.length with h0 | h0
  · simp [h0]
  · rw [if_neg (by omega)]

/-- The singleton residue fiber. -/
lemma filter_eq_singleton_range {n k : Nat} (hk : k < n) :
    (List.range n).filter (fun i => i = k) = [k] := by
  induction n with
  | zero => omega
  | succ n ih =>
    rw [List.range_succ, List.filter_append]
    by_cases h : k < n
    · rw [ih h]
      have e : List.filter (fun i => i = k) [n] = [] := by
        simp only [List.filter_cons, List.filter_nil, decide_eq_true_eq]
        rw [if_neg (by omega)]
      rw [e, List.append_nil]
    · have hkn : k = n := by omega
      subst hkn
      have e0 : (List.range k).filter (fun i => i = k) = [] := by
        rw [List.filter_eq_nil_iff]
        intro a ha
        have := List.mem_range.mp ha
        simp only [decide_eq_true_eq]
        omega
      rw [e0]
      simp [List.filter_cons]

/-- When the stride is at least the input length, `Alternate` produces the
singleton groups in input order. -/
lemma specAlternate_singletons (xs : List α) {v : Nat}
    (hn : xs.length ≤ v) :
    specAlternate xs v = xs.map (fun a => [a]) := by
  unfold specAlternate
  rw [List.filter_map, specAlternate_filter_key xs, filter_lt_range hn]
  refine List.ext_getElem (by simp) ?_
  intro i h1 h2
  have hi : i < xs.length := by simpa using h2
  simp only [List.getElem_map, List.getElem_range]
  have efib : (List.range xs.length).filter (fun j => j % v = i) =
      (List.range xs.length).filter (fun j => j = i) := by
    refine List.filter_congr ?_
    intro j hj
    have hjn := List.mem_range.mp hj
    have e : j % v = j := Nat.mod_eq_of_lt (by omega)
    rw [e]
  rw [efib, filter_eq_singleton_range hi, List.filterMap_cons,
    List.getElem?_eq_getElem hi]
  rfl

/-! ### Body-level invariants -/

/-- For every recognised mode and interval at least 1, the dispatch body
succeeds, its groups flatten to a permutation of its input, and every group
is an order-preserving selection from the input. -/
lemma exportBody_partition (xs : List α) (mode : String) (interval : Nat)
    (hm : mode ∈ scanModes) (hi : 1 ≤ interval) :
    ∃ gs, exportBody xs mode interval = .ok gs ∧
      gs.flatten.Perm xs ∧ ∀ g ∈ gs, g.Sublist xs := by
  simp only [scanModes, List.mem_cons, List.not_mem_nil, or_false] at hm
  rcases hm with rfl | rfl | rfl | rfl | rfl
  · refine ⟨_, exportBody_single xs interval, ?_, ?_⟩
    · rw [← chunksSpec_one, chunksSpec_flatten (le_refl 1)]
    · rw [← chunksSpec_one]
      exact chunksSpec_mem_sublist (le_refl 1) xs
  · refine ⟨_, exportBody_pair_chunks xs interval, ?_, ?_⟩
    · rw [chunksSpec_flatten (by omega)]
    · exact chunksSpec_mem_sublist (by omega) xs
  · refine ⟨[xs], exportBody_all xs interval, ?_, ?_⟩
    · simp only [List.flatten_cons, List.flatten_nil, List.append_nil]
      exact List.Perm.refl xs
    · intro g hg
      rcases List.mem_cons.mp hg with rfl | h0
      · exact List.Sublist.refl g
      · simp at h0
  · refine ⟨_, exportBody_groupOfX_chunks xs hi, ?_, ?_⟩
    · rw [chunksSpec_flatten hi]
    · exact chunksSpec_mem_sublist hi xs
  · rcases Nat.lt_or_ge interval 2 with h2 | h2
    · have h1 : interval = 1 := by omega
      subst h1
      refine ⟨[xs], by rw [exportBody_alternate, if_pos (by omega)], ?_, ?_⟩
      · simp only [List.flatten_cons, List.flatten_nil, List.append_nil]
        exact List.Perm.refl xs
      · intro g hg
        rcases List.mem_cons.mp hg with rfl | h0
        · exact List.Sublist.refl g
        · simp at h0
    · refine ⟨_, exportBody_alternate_spec xs h2, ?_, ?_⟩
      · exact specAlternate_flatten_perm xs (by omega)
      · intro g hg
        exact specAlternate_sublist xs g hg

/-- A body applied to a non-empty input never emits an empty group. -/
lemma exportBody_no_empty (xs : List α) (mode : String) (interval : Nat)
    (hm : mode ∈ scanModes) (hi : 1 ≤ interval) (hxs : xs ≠ []) :
    ∀ gs, exportBody xs mode interval = .ok gs → ∀ g ∈ gs, g ≠ [] := by
  simp only [scanModes, List.mem_cons, List.not_mem_nil, or_false] at hm
  intro gs hgs g hg
  rcases hm with rfl | rfl | rfl | rfl | rfl
  · rw [exportBody_single] at hgs
    have h := Except.ok.inj hgs
    subst h
    rw [List.mem_map] at hg
    obtain ⟨a, _, rfl⟩ := hg
    exact List.cons_ne_nil a []
  · rw [exportBody_pair_chunks] at hgs
    have h := Except.ok.inj hgs
    subst h
    exact chunksSpec_mem_ne_nil (by omega) xs g hg
  · rw [exportBody_all] at hgs
    have h := Except.ok.inj hgs
    subst h
    rcases List.mem_cons.mp hg with rfl | h0
    · exact hxs
    · simp at h0
  · rw [exportBody_groupOfX_chunks xs hi] at hgs
    have h := Except.ok.inj hgs
    subst h
    exact chunksSpec_mem_ne_nil hi xs g hg
  · rcases Nat.lt_or_ge interval 2 with h2 | h2
    · have h1 : interval = 1 := by omega
      subst h1
      rw [exportBody_alternate, if_pos (by omega)] at hgs
      have h := Except.ok.inj hgs
      subst h
      rcases List.mem_cons.mp hg with rfl | h0
      · exact hxs
      · simp at h0
    · rw [exportBody_alternate_spec xs h2] at hgs
      have h := Except.ok.inj hgs
      subst h
      have hp := List.of_mem_filter hg
      simpa using hp

/-! ### Claims -/

/-- Claim C1: for every input, every recognised scan mode and every interval
at least 1, the grouping succeeds and the multiset union of the output
groups is exactly the entry sequence it partitions (the selection, or the
full image list under the `All` fallback): nothing is dropped, nothing is
duplicated, and each group lists its entries in input order. -/
theorem C1_groups_partition_input {α : Type} (images selected : List α)
    (mode : String) (interval : Nat)
    (hm : mode ∈ scanModes) (hi : 1 ≤ interval) :
    ∃ gs, get_images_to_export images selected mode interval = .ok gs ∧
      gs.flatten.Perm (resolvedInput images selected mode) ∧
      ∀ g ∈ gs, g.Sublist (resolvedInput images selected mode) := by
  cases selected with
  | nil =>
    by_cases hAll : mode = "All"
    · subst hAll
      rw [get_nil, if_pos rfl]
      have h := exportBody_partition images "All" interval (by simp [scanModes]) hi
      simpa [resolvedInput] using h
    · rw [get_nil, if_neg hAll]
      refine ⟨[], rfl, ?_, by simp⟩
      simp [resolvedInput, hAll]
  | cons x t =>
    rw [get_cons]
    have h := exportBody_partition (x :: t) mode interval hm hi
    simpa [resolvedInput] using h

theorem C1_witness :
    (("Alternate" ∈ scanModes) ∧ 1 ≤ 3) ∧
    ∃ gs, get_images_to_export ([] : List Nat) [0, 1, 2, 3, 4, 5, 6]
        "Alternate" 3 = .ok gs ∧
      gs.flatten.Perm (resolvedInput ([] : List Nat) [0, 1, 2, 3, 4, 5, 6]
        "Alternate") ∧
      ∀ g ∈ gs, g.Sublist (resolvedInput ([] : List Nat) [0, 1, 2, 3, 4, 5, 6]
        "Alternate") :=
  ⟨⟨by decide, by decide⟩,
    C1_groups_partition_input [] [0, 1, 2, 3, 4, 5, 6] "Alternate" 3
      (by decide) (by decide)⟩

/-- Claim C2 fails on the code: in mode `All` with no selected images and an
empty image list, the function returns `[[]]` — one empty group — instead of
the empty output the claim demands. -/
theorem C2_counterexample :
    get_images_to_export ([] : List Nat) ([] : List Nat) "All" 1 =
      .ok [([] : List Nat)] ∧
    (Except.ok [([] : List Nat)] : Except String (List (List Nat))) ≠
      .ok [] := by
  refine ⟨rfl, ?_⟩
  intro h
  simp at h

/-- Claim C2 amended: in mode `All` the function always returns exactly one
group, holding the resolved input (the selection, or the full image list for
an empty selection) in input order; for an empty resolved input that single
group is empty — the output is `[[]]`, not `[]`. -/
theorem C2_all_single_group {α : Type} (images selected : List α)
    (interval : Nat) :
    get_images_to_export images selected "All" interval =
      .ok [resolvedInput images selected "All"] := by
  cases selected with
  | nil =>
    rw [get_nil, if_pos rfl, exportBody_all]
    simp [resolvedInput]
  | cons x t =>
    rw [get_cons, exportBody_all]
    simp [resolvedInput]

/-- Claim C3 fails on the code: an unrecognized mode does not raise — the
function silently returns an empty output — and `Group of X` with
interval 0 surfaces as Python's `ValueError` from `range`, not as an
`InvalidArgument` error. -/
theorem C3_counterexample :
    get_images_to_export ([] : List Nat) [0] "Bogus" 1 = .ok [] ∧
    get_images_to_export ([] : List Nat) [0] "Group of X" 0 =
      .error "ValueError: range() arg 3 must not be zero" :=
  ⟨rfl, rfl⟩

/-- Claim C3 amended: the function never raises `InvalidArgument`.  An
unrecognized mode silently falls through to an empty output, and the only
invalid-interval failure is the `ValueError` Python's `range` raises when
mode `Group of X` meets interval 0 on a non-empty selection. -/
theorem C3_failure_semantics {α : Type} (images selected : List α)
    (mode : String) (interval : Nat) :
    (mode ∉ scanModes →
      get_images_to_export images selected mode interval = .ok []) ∧
    (selected ≠ [] →
      get_images_to_export images selected "Group of X" 0 =
        .error "ValueError: range() arg 3 must not be zero") := by
  constructor
  · intro hm
    cases selected with
    | nil =>
      have hAll : mode ≠ "All" := by
        intro h
        apply hm
        rw [h]
        decide
      rw [get_nil, if_neg hAll]
    | cons x t =>
      rw [get_cons, exportBody_unknown _ _ _ hm]
  · intro hs
    cases selected with
    | nil => exact absurd rfl hs
    | cons x t =>
      rw [get_cons, exportBody_groupOfX, if_pos rfl]

theorem C3_witness :
    get_images_to_export ([] : List Nat) [7] "Bogus" 2 = .ok [] ∧
    get_images_to_export ([] : List Nat) [7] "Group of X" 0 =
      .error "ValueError: range() arg 3 must not be zero" :=
  ⟨(C3_failure_semantics [] [7] "Bogus" 2).1 (by decide),
   (C3_failure_semantics [] [7] "Group of X" 0).2 (by decide)⟩

/-- Claim C4 fails on the code: mode `All` with an empty resolved input
emits the output `[[]]`, which contains an empty group. -/
theorem C4_counterexample :
    get_images_to_export ([] : List Nat) ([] : List Nat) "All" 2 =
      .ok [([] : List Nat)] ∧ ([] : List Nat) ∈ [([] : List Nat)] :=
  ⟨rfl, by simp⟩

/-- Claim C4 amended: for every recognised mode and interval at least 1, no
output group is empty — except that mode `All` with an empty resolved input
(no selection and no images) produces the single empty group. -/
theorem C4_no_empty_groups {α : Type} (images selected : List α)
    (mode : String) (interval : Nat) (hm : mode ∈ scanModes)
    (hi : 1 ≤ interval)
    (hres : mode = "All" → resolvedInput images selected mode ≠ []) :
    ∀ gs, get_images_to_export images selected mode interval = .ok gs →
      ∀ g ∈ gs, g ≠ [] := by
  intro gs hgs g hg
  cases selected with
  | nil =>
    by_cases hAll : mode = "All"
    · subst hAll
      rw [get_nil, if_pos rfl] at hgs
      have himg : images ≠ [] := by
        have h := hres rfl
        simpa [resolvedInput] using h
      exact exportBody_no_empty images "All" interval (by simp [scanModes])
        hi himg gs hgs g hg
    · rw [get_nil, if_neg hAll] at hgs
      have h := Except.ok.inj hgs
      subst h
      simp at hg
  | cons x t =>
    rw [get_cons] at hgs
    exact exportBody_no_empty (x :: t) mode interval hm hi (by simp)
      gs hgs g hg

theorem C4_witness :
    (("Pair" ∈ scanModes) ∧ 1 ≤ 1) ∧
    ∀ gs, get_images_to_export ([] : List Nat) [1, 2, 3] "Pair" 1 = .ok gs →
      ∀ g ∈ gs, g ≠ [] :=
  ⟨⟨by decide, by decide⟩,
    C4_no_empty_groups [] [1, 2, 3] "Pair" 1 (by decide) (by decide)
      (fun h => absurd h (by decide))⟩

/-- Claim C5: in mode `Alternate` with interval at least 2, group `k` holds
exactly the entries at input positions congruent to `k` modulo the interval,
in increasing index order, empty groups are omitted, and the number of
groups is `min interval n` for a non-empty input and 0 otherwise. -/
theorem C5_alternate_stride {α : Type} (images selected : List α)
    {interval : Nat} (hi : 2 ≤ interval) :
    get_images_to_export images selected "Alternate" interval =
      .ok (specAlternate selected interval) ∧
    (specAlternate selected interval).length =
      if selected.length = 0 then 0 else min interval selected.length := by
  constructor
  · cases selected with
    | nil =>
      rw [get_nil, if_neg (by decide)]
      have e : specAlternate ([] : List α) interval = [] :=
        List.length_eq_zero.mp (by rw [specAlternate_length]; simp)
      rw [e]
    | cons x t =>
      rw [get_cons, exportBody_alternate_spec _ hi]
  · exact specAlternate_length selected interval

theorem C5_witness :
    2 ≤ 3 ∧
    (get_images_to_export ([] : List Nat) [0, 1, 2, 3, 4, 5, 6]
        "Alternate" 3 = .ok (specAlternate [0, 1, 2, 3, 4, 5, 6] 3) ∧
      (specAlternate ([0, 1, 2, 3, 4, 5, 6] : List Nat) 3).length =
        if ([0, 1, 2, 3, 4, 5, 6] : List Nat).length = 0 then 0
        else min 3 ([0, 1, 2, 3, 4, 5, 6] : List Nat).length) :=
  ⟨by decide, C5_alternate_stride [] [0, 1, 2, 3, 4, 5, 6] (by decide)⟩

/-- Claim C6 fails on the code: with an empty selection, `Alternate` with
interval 1 returns `[]` while `All` falls back to the full image list and
returns `[[5]]` — the two modes do not agree on that input. -/
theorem C6_counterexample :
    get_images_to_export [5] ([] : List Nat) "Alternate" 1 = .ok [] ∧
    get_images_to_export [5] ([] : List Nat) "All" 1 = .ok [[5]] ∧
    (Except.ok [] : Except String (List (List Nat))) ≠ .ok [[5]] := by
  refine ⟨rfl, rfl, ?_⟩
  intro h
  simp at h

/-- Claim C6 amended: in mode `Alternate` with interval at most 1 the
function returns a single group with all selected entries in order when the
selection is non-empty — coinciding with mode `All` there — and returns
empty output for an empty selection, where mode `All` instead falls back to
the full image list. -/
theorem C6_alternate_low_interval {α : Type} (images selected : List α)
    (interval : Nat) (hi : interval ≤ 1) :
    (selected ≠ [] →
      get_images_to_export images selected "Alternate" interval =
        get_images_to_export images selected "All" interval) ∧
    (selected = [] →
      get_images_to_export images selected "Alternate" interval = .ok []) := by
  constructor
  · intro hs
    cases selected with
    | nil => exact absurd rfl hs
    | cons x t =>
      rw [get_cons, get_cons, exportBody_alternate, if_pos hi, exportBody_all]
  · rintro rfl
    rw [get_nil, if_neg (by decide)]

theorem C6_witness :
    1 ≤ 1 ∧
    get_images_to_export ([] : List Nat) [3, 4] "Alternate" 1 =
      get_images_to_export ([] : List Nat) [3, 4] "All" 1 :=
  ⟨by decide, (C6_alternate_low_interval [] [3, 4] 1 (by decide)).1 (by decide)⟩

/-- Claim C7: `Group of X` with interval at least 1 produces the consecutive
chunks of size `interval` of the selection (last chunk possibly shorter),
`ceil(n / interval)` of them; `Pair` produces the chunks of size 2,
`ceil(n / 2)` of them; and `Single` produces one singleton group per entry,
`n` of them, in input order. -/
theorem C7_fixed_size_modes {α : Type} (images selected : List α)
    {interval : Nat} (hi : 1 ≤ interval) :
    (get_images_to_export images selected "Group of X" interval =
        .ok (chunksSpec interval selected) ∧
      (chunksSpec interval selected).length =
        (selected.length + interval - 1) / interval) ∧
    (get_images_to_export images selected "Pair" interval =
        .ok (chunksSpec 2 selected) ∧
      (chunksSpec 2 selected).length = (selected.length + 1) / 2) ∧
    (get_images_to_export images selected "Single" interval =
        .ok (selected.map (fun e => [e])) ∧
      (selected.map (fun e => [e])).length = selected.length) := by
  refine ⟨⟨?_, ?_⟩, ⟨?_, ?_⟩, ⟨?_, ?_⟩⟩
  · cases selected with
    | nil =>
      rw [get_nil, if_neg (by decide), chunksSpec_nil]
    | cons x t =>
      rw [get_cons, exportBody_groupOfX_chunks _ hi]
  · exact chunksSpec_length interval hi selected
  · cases selected with
    | nil =>
      rw [get_nil, if_neg (by decide), chunksSpec_nil]
    | cons x t =>
      rw [get_cons, exportBody_pair_chunks]
  · rw [chunksSpec_length 2 (by omega) selected]
    omega
  · cases selected with
    | nil =>
      rw [get_nil, if_neg (by decide)]
      rfl
    | cons x t =>
      rw [get_cons, exportBody_single]
  · rw [List.length_map]

theorem C7_witness :
    1 ≤ 3 ∧
    ((get_images_to_export ([] : List Nat) [0, 1, 2, 3, 4, 5, 6]
        "Group of X" 3 = .ok (chunksSpec 3 [0, 1, 2, 3, 4, 5, 6]) ∧
      (chunksSpec 3 ([0, 1, 2, 3, 4, 5, 6] : List Nat)).length =
        (([0, 1, 2, 3, 4, 5, 6] : List Nat).length + 3 - 1) / 3) ∧
    (get_images_to_export ([] : List Nat) [0, 1, 2, 3, 4, 5, 6] "Pair" 3 =
        .ok (chunksSpec 2 [0, 1, 2, 3, 4, 5, 6]) ∧
      (chunksSpec 2 ([0, 1, 2, 3, 4, 5, 6] : List Nat)).length =
        (([0, 1, 2, 3, 4, 5, 6] : List Nat).length + 1) / 2) ∧
    (get_images_to_export ([] : List Nat) [0, 1, 2, 3, 4, 5, 6] "Single" 3 =
        .ok (([0, 1, 2, 3, 4, 5, 6] : List Nat).map (fun e => [e])) ∧
      (([0, 1, 2, 3, 4, 5, 6] : List Nat).map (fun e => [e])).length =
        ([0, 1, 2, 3, 4, 5, 6] : List Nat).length)) :=
  ⟨by decide, C7_fixed_size_modes [] [0, 1, 2, 3, 4, 5, 6] (by decide)⟩

/-- Claim C8: on every input, mode `Pair` computes exactly what mode
`Group of X` computes with interval 2, whatever interval the spin box
holds in `Pair` mode. -/
theorem C8_pair_eq_groupOfX_two {α : Type} (images selected : List α)
    (interval : Nat) :
    get_images_to_export images selected "Pair" interval =
      get_images_to_export images selected "Group of X" 2 := by
  cases selected with
  | nil => rfl
  | cons x t =>
    rw [get_cons, get_cons, exportBody_pair_chunks,
      exportBody_groupOfX_chunks _ (by omega)]

/-- Claim C9: on every input, mode `Group of X` with interval 1 computes
exactly what mode `Single` computes: one singleton group per entry, in
input order. -/
theorem C9_groupOfX_one_eq_single {α : Type} (images selected : List α)
    (interval : Nat) :
    get_images_to_export images selected "Group of X" 1 =
      get_images_to_export images selected "Single" interval := by
  cases selected with
  | nil => rfl
  | cons x t =>
    rw [get_cons, get_cons, exportBody_groupOfX_chunks _ (le_refl 1),
      exportBody_single, chunksSpec_one]

/-- Claim C10: on a non-empty selection, mode `Alternate` with a stride at
least `max 2 n` computes exactly what mode `Single` computes: `n` singleton
groups in input order. -/
theorem C10_alternate_saturated_eq_single {α : Type}
    (images selected : List α) {interval : Nat} (hs : selected ≠ [])
    (h2 : 2 ≤ interval) (hn : selected.length ≤ interval) :
    get_images_to_export images selected "Alternate" interval =
      get_images_to_export images selected "Single" interval := by
  cases selected with
  | nil => exact absurd rfl hs
  | cons x t =>
    rw [get_cons, get_cons, exportBody_alternate_spec _ h2, exportBody_single,
      specAlternate_singletons _ hn]

theorem C10_witness :
    (([7, 8, 9] : List Nat) ≠ [] ∧ 2 ≤ 5 ∧
      ([7, 8, 9] : List Nat).length ≤ 5) ∧
    get_images_to_export ([] : List Nat) [7, 8, 9] "Alternate" 5 =
      get_images_to_export ([] : List Nat) [7, 8, 9] "Single" 5 :=
  ⟨⟨by decide, by decide, by decide⟩,
    C10_alternate_saturated_eq_single [] [7, 8, 9] (by decide) (by decide)
      (by decide)⟩

end Monster3
